import Mathlib

/-!
Verification of the MapView component (src/components/MapView.tsx) of
StationFlow-Frontend.  The component reconciles declarative React state
(stations, selection, user location, routing flags) with an imperative
Leaflet map.  We shallowly embed the relevant handlers and effects as pure
Lean functions and explicit state machines.  Geographic coordinates are
modelled with integer lat/lng (no claim performs coordinate arithmetic);
calls into the map library (polyline construction, fitBounds, flyTo) are
modelled as total state updates.
-/

namespace MapView

/-- Geographic coordinate, as Leaflet [lat, lng]. -/
structure LatLng where
  lat : Int
  lng : Int
deriving DecidableEq, Repr

/-- Station data as read by MapView: stable id and a coordinate.  The
remaining Station fields (type, capacity, availability, status) only feed
the cosmetic icon colour and popup text and are not inspected by any
invariant, so they are omitted from the embedding. -/
structure Station where
  id : String
  location : LatLng
deriving DecidableEq, Repr

/-! ## Route fetch completion (fetchRoute, lines 376-432)

The body of fetchRoute runs only under the guard
showRoute && userLocation && routeDestination && !isPickingLocation.
After the awaits, the continuation checks the per-invocation isCancelled
flag before every mutating step.  A response is either a transport/parse
failure (fetch rejected or response.json() threw, landing in the catch
block) or a parsed object whose routes field is a list of geometries
(a missing or non-array routes field behaves exactly like the empty
list, since the guard is data.routes && data.routes.length > 0). -/

/-- A geometry is the coordinates list of routes[0].geometry: GeoJSON
[lng, lat] pairs. -/
abbrev Geometry := List (Int × Int)

/-- Outcome of the awaited fetch + json() pair:  fail covers a network
error or a malformed (unparseable) payload, both of which throw and land
in the catch block; ok carries the parsed routes list. -/
inductive FetchResult where
  | fail : FetchResult
  | ok : List Geometry → FetchResult
deriving DecidableEq, Repr

/-- Kind of the rendered route overlay: solid blue polyline on success,
dashed red polyline for the fallback. -/
inductive OverlayKind where
  | solid : OverlayKind
  | dashed : OverlayKind
deriving DecidableEq, Repr

/-- A route overlay: its style kind and its polyline points. -/
structure Overlay where
  kind : OverlayKind
  points : List LatLng
deriving DecidableEq, Repr

/-- GeoJSON coordinate [lng, lat] swapped to Leaflet [lat, lng], as in
coord => [coord[1], coord[0]]. -/
def swapCoord (c : Int × Int) : LatLng := ⟨c.2, c.1⟩

/-- Routing inputs of the route-drawing effect (its dependency list,
minus the constant map instance): showRoute, userLocation,
routeDestination (id and location), isPickingLocation. -/
structure RouteInputs where
  showRoute : Bool
  userLocation : Option LatLng
  dest : Option Station
  picking : Bool
deriving DecidableEq, Repr

/-- Guard at the top of fetchRoute:
showRoute && userLocation && routeDestination && !isPickingLocation. -/
def eligible (i : RouteInputs) : Bool :=
  i.showRoute && i.userLocation.isSome && i.dest.isSome && !i.picking

/-- Pure embedding of one fetchRoute completion: given the invocation's
isCancelled flag, the inputs captured by its closure, the fetch outcome
and the current hasFittedRouteRef value, it returns the overlay attached
to the map together with whether fitBounds ran, or none when nothing is
mutated.  Translated clause by clause from lines 379-431: the guard, the
post-await isCancelled early return, the data.routes non-emptiness check
guarding the solid polyline, and the catch block drawing the dashed
straight line [origin, destination]; both branches fit only when
hasFittedRouteRef is still false. -/
def fetchRouteResult (isCancelled : Bool) (inp : RouteInputs)
    (resp : FetchResult) (hasFitted : Bool) : Option (Overlay × Bool) :=
  match inp.showRoute, inp.userLocation, inp.dest, inp.picking with
  | true, some origin, some d, false =>
    match resp with
    | FetchResult.ok routes =>
      if isCancelled then none
      else
        match routes with
        | [] => none
        | g :: _ =>
          if isCancelled then none
          else some (⟨OverlayKind.solid, g.map swapCoord⟩, !hasFitted)
    | FetchResult.fail =>
      if isCancelled then none
      else if isCancelled then none
      else some (⟨OverlayKind.dashed, [origin, d.location]⟩, !hasFitted)
  | _, _, _, _ => none

/-- A cancelled completion never mutates anything. -/
theorem fetchRouteResult_cancelled (inp : RouteInputs) (resp : FetchResult)
    (hasFitted : Bool) : fetchRouteResult true inp resp hasFitted = none := by
  unfold fetchRouteResult
  cases h1 : inp.showRoute <;> cases h2 : inp.userLocation <;>
    cases h3 : inp.dest <;> cases h4 : inp.picking <;> cases resp <;> simp

/-! ## C2: failure taxonomy of the route fetch -/

/-- C2 counterexample: a well-formed response whose result set is empty
(ok with zero routes) does NOT produce the dashed fallback overlay — the
completion mutates nothing at all (data.routes.length > 0 fails and the
catch block is never entered), contradicting the claim that an empty
result set is treated identically to a transport failure. -/
theorem c2_empty_routes_no_fallback :
    fetchRouteResult false
      ⟨true, some ⟨41, 29⟩, some ⟨"1", ⟨42, 30⟩⟩, false⟩
      (FetchResult.ok []) false = none := by
  rfl

/-- C2 amended: for an eligible, uncancelled attempt, a transport failure
or unparseable payload (the reject/throw path) draws the dashed fallback
overlay directly connecting the origin and destination coordinates
(fitting iff not already fitted), whereas a well-formed response with an
empty result set draws nothing at all — it is NOT treated like a
transport failure. -/
theorem c2_failure_taxonomy (origin : LatLng) (d : Station) (hasFitted : Bool) :
    fetchRouteResult false ⟨true, some origin, some d, false⟩
        FetchResult.fail hasFitted
      = some (⟨OverlayKind.dashed, [origin, d.location]⟩, !hasFitted)
    ∧ fetchRouteResult false ⟨true, some origin, some d, false⟩
        (FetchResult.ok []) hasFitted = none := by
  exact ⟨rfl, rfl⟩

/-! ## Marker reconciliation (stations effect, lines 244-357)

On every change of {stations, selectedStation, routeDestination,
showRoute, isPickingLocation} the effect clears the cluster group and
rebuilds one marker per station.  A marker is the highlighted large icon
iff isSelected || isDestination, otherwise the minimal 12px point glyph;
every marker binds the popup whose route button carries
data-action = remove iff showRoute && routeDestination.id == station.id. -/

/-- isSelected for a station: selectedStation?.id === station.id. -/
def isSelected (selected : Option Station) (st : Station) : Bool :=
  match selected with
  | none => false
  | some s => s.id == st.id

/-- isDestination for a station: routeDestination?.id === station.id. -/
def isDestination (dest : Option Station) (st : Station) : Bool :=
  match dest with
  | none => false
  | some d => d.id == st.id

/-- The visual marker built for one station: its station id, whether it
is the highlighted large icon, and the data-action string its popup route
button carries. -/
structure Marker where
  stationId : String
  highlighted : Bool
  popupAction : String
deriving DecidableEq, Repr

/-- Marker construction for one station (loop body, lines 252-353):
highlighted iff isSelected || isDestination; the popup route button's
data-action is remove iff showRoute && routeDestination.id matches. -/
def buildMarker (selected dest : Option Station) (showRoute : Bool)
    (st : Station) : Marker :=
  { stationId := st.id
    highlighted := isSelected selected st || isDestination dest st
    popupAction := if showRoute && isDestination dest st then "remove" else "create" }

/-- Marker reconciliation: clearLayers() discards the previous marker
set wholesale, then one marker per station is added. -/
def reconcileMarkers (_prev : List Marker) (stations : List Station)
    (selected dest : Option Station) (showRoute : Bool) : List Marker :=
  stations.map (buildMarker selected dest showRoute)

/-- C7: after every marker reconciliation the number of highlighted
(large-icon) markers equals the number of stations satisfying
isSelected or isDestination; moreover exactly one marker is rendered per
station, the i-th marker belonging to the i-th station, highlighted
exactly when that station is selected or the destination (so every other
station yields exactly one minimal glyph). -/
theorem c7_marker_count_invariant (prev : List Marker)
    (stations : List Station) (selected dest : Option Station)
    (showRoute : Bool) :
    ((reconcileMarkers prev stations selected dest showRoute).filter
        (fun m => m.highlighted)).length
      = (stations.filter
          (fun st => isSelected selected st || isDestination dest st)).length
    ∧ (reconcileMarkers prev stations selected dest showRoute).length
        = stations.length
    ∧ ∀ i : Nat,
        (reconcileMarkers prev stations selected dest showRoute)[i]?
          = (stations[i]?).map (buildMarker selected dest showRoute) := by
  refine ⟨?_, by simp [reconcileMarkers], ?_⟩
  · induction stations with
    | nil => rfl
    | cons st rest ih =>
      by_cases h : (isSelected selected st || isDestination dest st) = true
      · simp only [reconcileMarkers, List.map_cons, List.filter_cons] at *
        simp [buildMarker, h, ih]
      · simp only [reconcileMarkers, List.map_cons, List.filter_cons] at *
        simp [buildMarker, h, ih]
  · intro i
    simp [reconcileMarkers]

/-! ## Click handling (marker click lines 346-350, picking-mode effect
lines 186-209) -/

/-- Outbound signals MapView can emit from click events. -/
inductive OutSignal where
  | stationSelected : Station → OutSignal
  | locationPicked : LatLng → OutSignal
deriving DecidableEq, Repr

/-- Click handler attached to every station marker: emits
onStationSelect(station) unless isPickingLocation (the handler closes
over the flag, and markers are rebuilt whenever it changes, so the value
is current).  onStationSelect is a required prop, hence always present. -/
def markerClick (isPickingLocation : Bool) (st : Station) : Option OutSignal :=
  if !isPickingLocation then some (OutSignal.stationSelected st) else none

/-- Map click while the picking-mode effect is active: the effect
registers the click handler only when isPickingLocation is true, and the
handler forwards the clicked coordinate to onLocationPicked when that
optional prop is present. -/
def mapClick (isPickingLocation : Bool) (hasOnLocationPicked : Bool)
    (loc : LatLng) : Option OutSignal :=
  if isPickingLocation then
    (if hasOnLocationPicked then some (OutSignal.locationPicked loc) else none)
  else none

/-- C8: with picking mode inactive, a marker click emits exactly one
station-selected signal carrying that station (and a map click emits
nothing); with picking mode active, marker clicks emit no signal at all,
and a map click emits the location-picked signal carrying the clicked
coordinate (given the surrounding application registered the
onLocationPicked handler). -/
theorem c8_click_routing (st : Station) (loc : LatLng) :
    (markerClick false st = some (OutSignal.stationSelected st)
      ∧ mapClick false true loc = none)
    ∧ (markerClick true st = none
      ∧ mapClick true true loc = some (OutSignal.locationPicked loc)) := by
  exact ⟨⟨rfl, rfl⟩, ⟨rfl, rfl⟩⟩

/-! ## Popup route button dispatch (bindPopupButtons, lines 61-98) -/

/-- Signals the popup route button can raise. -/
inductive RouteBtnSignal where
  | createRoute : RouteBtnSignal
  | removeRoute : RouteBtnSignal
deriving DecidableEq, Repr

/-- Click handler of the popup's route button (lines 68-79): if the
button's data-action is remove and a remove-route handler is currently
registered, invoke it; otherwise invoke the create-route handler if one
is registered; otherwise do nothing.  The handlers are read through the
refs (onRemoveRouteRef/onCreateRouteRef), hence always current. -/
def routeBtnClick (action : String) (hasOnRemoveRoute hasOnCreateRoute : Bool) :
    Option RouteBtnSignal :=
  if action == "remove" && hasOnRemoveRoute then some RouteBtnSignal.removeRoute
  else if hasOnCreateRoute then some RouteBtnSignal.createRoute
  else none

/-- C9: a route-button click with data-action = remove but no registered
remove-route handler falls through to the create-route handler (when one
is registered); and for any data-action other than remove the
create-route handler is invoked (when registered), regardless of whether
a remove-route handler exists. -/
theorem c9_route_button_fallthrough (action : String) (hasRemove : Bool) :
    (routeBtnClick "remove" false true = some RouteBtnSignal.createRoute)
    ∧ (action ≠ "remove" →
        routeBtnClick action hasRemove true = some RouteBtnSignal.createRoute) := by
  constructor
  · rfl
  · intro h
    have hne : (action == "remove") = false := by
      simp [h]
    simp [routeBtnClick, hne]

/-- C9 witness: the theorem applied at the concrete action "report". -/
theorem c9_route_button_fallthrough_witness :
    routeBtnClick "report" true true = some RouteBtnSignal.createRoute :=
  (c9_route_button_fallthrough "report" true).2 (by decide)

/-! ## User-location effect (lines 212-241)

The effect runs on every userLocation change (it returns early when the
location is absent).  If no user marker exists yet it creates one at the
location and — only when no station is selected at that render — flies
the view to the location at zoom 14; otherwise it merely moves the
existing marker in place. -/

/-- Map state touched by the user-location effect: the user marker's
position (none before creation) and the view (center and zoom). -/
structure UserLocState where
  userMarker : Option LatLng
  center : LatLng
  zoom : Nat
deriving DecidableEq, Repr

/-- One run of the user-location effect for a present location:
first run creates the marker and conditionally flies; later runs only
setLatLng the marker. -/
def userLocationStep (s : UserLocState) (loc : LatLng)
    (hasSelectedStation : Bool) : UserLocState :=
  match s.userMarker with
  | none =>
    if !hasSelectedStation then
      { userMarker := some loc, center := loc, zoom := 14 }
    else
      { s with userMarker := some loc }
  | some _ => { s with userMarker := some loc }

/-- A sequence of user-location updates, each paired with whether a
station was selected at that moment. -/
def runUserLocation (s : UserLocState) : List (LatLng × Bool) → UserLocState
  | [] => s
  | u :: rest => runUserLocation (userLocationStep s u.1 u.2) rest

/-- The user marker, once created, persists through further updates. -/
theorem userMarker_persists (s : UserLocState) (us : List (LatLng × Bool))
    (h : s.userMarker.isSome = true) :
    (runUserLocation s us).userMarker.isSome = true := by
  induction us generalizing s with
  | nil => exact h
  | cons u rest ih =>
    cases hm : s.userMarker with
    | none => rw [hm] at h; cases h
    | some p =>
      exact ih (userLocationStep s u.1 u.2) (by simp [userLocationStep, hm])

/-- C10: the first user-location update creates the marker and flies the
view to the location at zoom 14 exactly when no station is selected at
that moment (with a selection, only the marker is created); and once the
marker exists, any further sequence of updates leaves the view (center
and zoom) unchanged while only moving the marker. -/
theorem c10_user_location_effect (s : UserLocState) (loc : LatLng)
    (sel : Bool) (us : List (LatLng × Bool)) :
    (s.userMarker = none → sel = false →
      userLocationStep s loc sel = ⟨some loc, loc, 14⟩)
    ∧ (s.userMarker = none → sel = true →
      userLocationStep s loc sel = ⟨some loc, s.center, s.zoom⟩)
    ∧ (s.userMarker.isSome = true →
      (runUserLocation s us).center = s.center
        ∧ (runUserLocation s us).zoom = s.zoom
        ∧ userLocationStep s loc sel = ⟨some loc, s.center, s.zoom⟩) := by
  refine ⟨?_, ?_, ?_⟩
  · intro hm hs
    simp [userLocationStep, hm, hs]
  · intro hm hs
    cases s with
    | mk m c z =>
      simp only at hm
      subst hm hs
      simp [userLocationStep]
  · intro hm
    have hstep : ∀ (s' : UserLocState) (l : LatLng) (b : Bool),
        s'.userMarker.isSome = true →
        userLocationStep s' l b = ⟨some l, s'.center, s'.zoom⟩ := by
      intro s' l b h
      cases hm' : s'.userMarker with
      | none => rw [hm'] at h; cases h
      | some p => cases s' with
        | mk m c z => simp only at hm'; subst hm'; simp [userLocationStep]
    refine ⟨?_, ?_, hstep s loc sel hm⟩
    · induction us generalizing s with
      | nil => rfl
      | cons u rest ih =>
        have h1 := hstep s u.1 u.2 hm
        show (runUserLocation (userLocationStep s u.1 u.2) rest).center = s.center
        rw [h1]
        have := ih ⟨some u.1, s.center, s.zoom⟩ (by simp)
        simpa using this
    · induction us generalizing s with
      | nil => rfl
      | cons u rest ih =>
        have h1 := hstep s u.1 u.2 hm
        show (runUserLocation (userLocationStep s u.1 u.2) rest).zoom = s.zoom
        rw [h1]
        have := ih ⟨some u.1, s.center, s.zoom⟩ (by simp)
        simpa using this

/-- C10 witness: the theorem applied at a concrete fresh state (fly to
zoom 14 since nothing selected) and at a concrete marker-present state
followed by two updates (view untouched). -/
theorem c10_user_location_effect_witness :
    userLocationStep ⟨none, ⟨41, 28⟩, 13⟩ ⟨5, 6⟩ false = ⟨some ⟨5, 6⟩, ⟨5, 6⟩, 14⟩
    ∧ (runUserLocation ⟨some ⟨1, 1⟩, ⟨41, 28⟩, 13⟩
        [(⟨2, 2⟩, true), (⟨3, 3⟩, false)]).center = ⟨41, 28⟩ :=
  ⟨(c10_user_location_effect ⟨none, ⟨41, 28⟩, 13⟩ ⟨5, 6⟩ false []).1 rfl rfl,
   ((c10_user_location_effect ⟨some ⟨1, 1⟩, ⟨41, 28⟩, 13⟩ ⟨0, 0⟩ false
      [(⟨2, 2⟩, true), (⟨3, 3⟩, false)]).2.2 rfl).1⟩

/-! ## Center-on-selection effect (lines 447-453)

The effect has dependency list [selectedStation, showRoute,
isPickingLocation, mapInstance]; React re-runs it exactly when one of
these changed (and on mount).  Its body flies to the selected station at
zoom 16 whenever a station is selected, no route is shown and picking is
inactive. -/

/-- The centering effect's inputs (its dependency list, minus the
constant map instance). -/
structure CenterInputs where
  selectedStation : Option Station
  showRoute : Bool
  picking : Bool
deriving DecidableEq, Repr

/-- Body condition of the centering effect:
selectedStation && !showRoute && !isPickingLocation. -/
def centerCond (i : CenterInputs) : Bool :=
  i.selectedStation.isSome && !i.showRoute && !i.picking

/-- Number of flyTo animations fired over a sequence of renders, given
the previous render's inputs (none on mount): the effect re-runs iff the
inputs changed, and flies iff its body condition holds. -/
def centerFlies (prev : Option CenterInputs) : List CenterInputs → Nat
  | [] => 0
  | cur :: rest =>
    (if prev = some cur then 0 else if centerCond cur then 1 else 0)
      + centerFlies (some cur) rest

/-- C6 counterexample: over the renders (station 1 selected, no route,
picking off) → (same, picking on) → (same, picking off), the selected
station never changes — so the claim (fire exactly on the transition
into selection, never on other re-renders with the same selection)
allows at most one animation — yet the code fires the flyTo twice:
toggling the picking flag off re-triggers it. -/
theorem c6_retrigger_counterexample :
    centerFlies none
      [⟨some ⟨"1", ⟨41, 29⟩⟩, false, false⟩,
       ⟨some ⟨"1", ⟨41, 29⟩⟩, false, true⟩,
       ⟨some ⟨"1", ⟨41, 29⟩⟩, false, false⟩] = 2
    ∧ ([⟨some ⟨"1", ⟨41, 29⟩⟩, false, false⟩,
        ⟨some ⟨"1", ⟨41, 29⟩⟩, false, true⟩,
        ⟨some ⟨"1", ⟨41, 29⟩⟩, false, false⟩] : List CenterInputs).all
        (fun i => i.selectedStation == some ⟨"1", ⟨41, 29⟩⟩) = true := by
  exact ⟨rfl, rfl⟩

/-- Positional restatement of when the animation fires: pair every
render with its predecessor (the mount predecessor being none) and count
the renders whose inputs differ from the predecessor and satisfy the
body condition. -/
def centerFliesSpec (prev : Option CenterInputs) (tr : List CenterInputs) : Nat :=
  ((prev :: tr.map some).zip tr).countP
    (fun pc => decide (pc.1 ≠ some pc.2) && centerCond pc.2)

/-- C6 amended: the recenter animation fires at exactly those renders at
which the effect's inputs (selection, route flag, picking flag) differ
from the previous render's (or it is the first render) AND a station is
selected with no route shown and picking inactive.  In particular it
does fire on the transition into selection under those conditions, but
it equally re-triggers on re-renders where the same station stays
selected and another dependency (showRoute, picking) changed. -/
theorem c6_fly_characterization (prev : Option CenterInputs)
    (tr : List CenterInputs) :
    centerFlies prev tr = centerFliesSpec prev tr := by
  induction tr generalizing prev with
  | nil => rfl
  | cons cur rest ih =>
    by_cases h : prev = some cur
    · simp [centerFlies, centerFliesSpec, List.countP_cons, h, ih (some cur),
        centerFliesSpec]
    · by_cases hc : centerCond cur = true
      · simp [centerFlies, centerFliesSpec, List.countP_cons, h, hc,
          ih (some cur), Nat.add_comm]
      · simp [centerFlies, centerFliesSpec, List.countP_cons, h, hc,
          ih (some cur)]

/-! ## Popup lifecycle arbiter (lines 152-171)

The popupopen handler sets isSwitchingPopup := false (and rebinds the
popup buttons).  The popupclose handler sets isSwitchingPopup := true and
arms a 200ms setTimeout whose callback, when it fires, emits one
deselection signal and clears the flag if the flag is still set, and
otherwise does nothing.  We model a session as a time-ordered list of
popup events.  Pending timers are kept as a deadline list (appended in
arming order); before an event at time t is processed, every timer whose
deadline has passed fires, in deadline order; after the last event the
remaining timers all fire.  The deselection handler is assumed
registered (onDeselectRef present), so each firing with the flag set
counts one signal. -/

/-- A popup lifecycle event of the map widget. -/
inductive PEvent where
  | popupopen : PEvent
  | popupclose : PEvent
deriving DecidableEq, Repr

/-- Arbiter state: the isSwitchingPopup ref, the pending setTimeout
deadlines, and the number of deselection signals emitted so far. -/
structure ArbState where
  isSwitchingPopup : Bool
  timers : List Nat
  deselects : Nat
deriving DecidableEq, Repr

/-- Fire every pending timer whose deadline is at most t, in order.
Each firing runs the timeout callback of lines 163-170: if the flag is
set, emit one deselection and clear it; otherwise do nothing. -/
def fireDue (t : Nat) : List Nat → Bool → Nat → List Nat × Bool × Nat
  | [], f, c => ([], f, c)
  | d :: ds, f, c =>
    if d ≤ t then
      if f then fireDue t ds false (c + 1) else fireDue t ds f c
    else (d :: ds, f, c)

/-- At the end of the session every remaining timer eventually fires. -/
def flushTimers : List Nat → Bool → Nat → Nat
  | [], _, c => c
  | _ :: ds, f, c => if f then flushTimers ds false (c + 1) else flushTimers ds f c

/-- Process one popup event at its timestamp: first let due timers fire,
then run the popupopen handler (flag := false) or the popupclose handler
(flag := true, arm a timer for 200ms later). -/
def stepPopup (s : ArbState) (ev : Nat × PEvent) : ArbState :=
  match fireDue ev.1 s.timers s.isSwitchingPopup s.deselects with
  | (ts, f, c) =>
    match ev.2 with
    | PEvent.popupopen => ⟨false, ts, c⟩
    | PEvent.popupclose => ⟨true, ts ++ [ev.1 + 200], c⟩

/-- Run the remaining events from a state and let the session end. -/
def finishArb : ArbState → List (Nat × PEvent) → Nat
  | s, [] => flushTimers s.timers s.isSwitchingPopup s.deselects
  | s, e :: r => finishArb (stepPopup s e) r

/-- Total number of deselection signals emitted over a whole session. -/
def deselectCount (tr : List (Nat × PEvent)) : Nat :=
  finishArb ⟨false, [], 0⟩ tr

/-- Is there a popupopen strictly inside the debounce window after a
close at time t, i.e. at some time t' with t < t' < t + 200? -/
def openWithin (t : Nat) (r : List (Nat × PEvent)) : Bool :=
  r.any (fun e => decide (e.2 = PEvent.popupopen) && decide (t < e.1)
    && decide (e.1 < t + 200))

/-- Is there a popupopen before time d in the remaining events? -/
def openBefore (d : Nat) (r : List (Nat × PEvent)) : Bool :=
  r.any (fun e => decide (e.2 = PEvent.popupopen) && decide (e.1 < d))

/-- Number of genuine closes: popupclose events with no popupopen
strictly within the following debounce window.  The claim says exactly
these produce one deselection signal each, and the others none. -/
def genuineCloses : List (Nat × PEvent) → Nat
  | [] => 0
  | (_, PEvent.popupopen) :: r => genuineCloses r
  | (t, PEvent.popupclose) :: r => (if openWithin t r then 0 else 1) + genuineCloses r

/-- C4 counterexample: in the well-formed session
open@0, close@5, open@10, close@100, open@240
every popupclose is followed by a popupopen within the 200ms debounce
window (open@10 follows close@5; open@240 follows close@100 at distance
140), so the claim demands zero deselection signals — but the stale
timer armed by close@5 fires at t=205, after close@100 has re-set the
flag and before open@240 clears it, and emits one spurious deselection
signal. -/
theorem c4_stale_timer_counterexample :
    genuineCloses
        [(0, PEvent.popupopen), (5, PEvent.popupclose), (10, PEvent.popupopen),
         (100, PEvent.popupclose), (240, PEvent.popupopen)] = 0
    ∧ deselectCount
        [(0, PEvent.popupopen), (5, PEvent.popupclose), (10, PEvent.popupopen),
         (100, PEvent.popupclose), (240, PEvent.popupopen)] = 1 := by
  exact ⟨by decide, by decide⟩

/-- Event times are strictly increasing, each above the optional lower
bound. -/
def sortedChain : Option Nat → List (Nat × PEvent) → Bool
  | _, [] => true
  | none, e :: r => sortedChain (some e.1) r
  | some b, e :: r => decide (b < e.1) && sortedChain (some e.1) r

/-- Consecutive popupclose events are separated by more than the 200ms
debounce window; the optional argument is the time of the last close
before the list. -/
def closesSeparated : Option Nat → List (Nat × PEvent) → Bool
  | _, [] => true
  | lc, (_, PEvent.popupopen) :: r => closesSeparated lc r
  | lc, (t, PEvent.popupclose) :: r =>
    (match lc with
     | none => true
     | some c => decide (c + 200 < t)) && closesSeparated (some t) r

theorem sortedChain_weaken (r : List (Nat × PEvent)) (a b : Nat)
    (hab : a ≤ b) (h : sortedChain (some b) r = true) :
    sortedChain (some a) r = true := by
  cases r with
  | nil => rfl
  | cons e r =>
    simp only [sortedChain, Bool.and_eq_true, decide_eq_true_eq] at h ⊢
    exact ⟨lt_of_le_of_lt hab h.1, h.2⟩

theorem openBefore_false_of_sorted (r : List (Nat × PEvent)) (b d : Nat)
    (hs : sortedChain (some b) r = true) (hd : d ≤ b + 1) :
    openBefore d r = false := by
  induction r generalizing b with
  | nil => rfl
  | cons e r ih =>
    simp only [sortedChain, Bool.and_eq_true, decide_eq_true_eq] at hs
    have h1 : ¬ (e.1 < d) := by omega
    simp only [openBefore, List.any_cons, Bool.or_eq_false_iff]
    constructor
    · simp [h1]
    · exact ih e.1 hs.2 (by omega)

theorem openWithin_eq_openBefore (r : List (Nat × PEvent)) (t : Nat)
    (hs : sortedChain (some t) r = true) :
    openWithin t r = openBefore (t + 200) r := by
  induction r generalizing t with
  | nil => rfl
  | cons e r ih =>
    simp only [sortedChain, Bool.and_eq_true, decide_eq_true_eq] at hs
    have ht : decide (t < e.1) = true := by simpa using hs.1
    have hr : openWithin t r = openBefore (t + 200) r := by
      have := ih t (sortedChain_weaken r t e.1 (le_of_lt hs.1) hs.2)
      exact this
    simp only [openWithin, openBefore, List.any_cons] at hr ⊢
    rw [ht]
    simp only [Bool.and_true, Bool.true_and]
    rw [show (r.any fun e => decide (e.2 = PEvent.popupopen) && decide (t < e.1)
          && decide (e.1 < t + 200)) = openWithin t r from rfl] at *
    rw [show (r.any fun e => decide (e.2 = PEvent.popupopen) && decide (e.1 < t + 200))
          = openBefore (t + 200) r from rfl] at *
    rw [hr]

/-- One step lemmas for fireDue on the two reachable timer shapes. -/
theorem fireDue_nil (t : Nat) (f : Bool) (c : Nat) :
    fireDue t [] f c = ([], f, c) := rfl

theorem fireDue_single_fired (t t0 c : Nat) (f : Bool) (h : t0 + 200 ≤ t) :
    fireDue t [t0 + 200] f c = ([], false, c + if f then 1 else 0) := by
  cases f <;> simp [fireDue, h]

theorem fireDue_single_pending (t t0 c : Nat) (f : Bool) (h : ¬(t0 + 200 ≤ t)) :
    fireDue t [t0 + 200] f c = ([t0 + 200], f, c) := by
  cases f <;> simp [fireDue, h]

/-- Joint specification of finishArb from the two reachable timer
shapes (no pending timer with the flag clear; exactly one pending timer
armed by a close at time t0), under strictly increasing event times and
close events separated by more than the debounce window. -/
theorem finishArb_spec (r : List (Nat × PEvent)) :
    (∀ (c : Nat) (ob : Option Nat) (lc : Option Nat),
      sortedChain ob r = true → closesSeparated lc r = true →
      finishArb ⟨false, [], c⟩ r = c + genuineCloses r)
    ∧ (∀ (t0 : Nat) (f : Bool) (c : Nat) (ob : Option Nat),
      sortedChain ob r = true → closesSeparated (some t0) r = true →
      finishArb ⟨f, [t0 + 200], c⟩ r
        = c + (if f && !openBefore (t0 + 200) r then 1 else 0) + genuineCloses r) := by
  induction r with
  | nil =>
    constructor
    · intro c ob lc _ _
      simp [finishArb, flushTimers, genuineCloses]
    · intro t0 f c ob _ _
      cases f <;> simp [finishArb, flushTimers, genuineCloses, openBefore]
  | cons e r ih =>
    obtain ⟨ihn, iho⟩ := ih
    obtain ⟨t, ev⟩ := e
    constructor
    · intro c ob lc hs hc
      have hs' : sortedChain (some t) r = true := by
        cases ob with
        | none => simpa [sortedChain] using hs
        | some b =>
          simp only [sortedChain, Bool.and_eq_true] at hs
          exact hs.2
      cases ev with
      | popupopen =>
        have hc' : closesSeparated lc r = true := by
          simpa [closesSeparated] using hc
        have hstep : stepPopup ⟨false, [], c⟩ (t, PEvent.popupopen)
            = ⟨false, [], c⟩ := by
          simp [stepPopup, fireDue]
        have h1 := ihn c (some t) lc hs' hc'
        calc finishArb ⟨false, [], c⟩ ((t, PEvent.popupopen) :: r)
            = finishArb ⟨false, [], c⟩ r := by
              simp only [finishArb, hstep]
          _ = c + genuineCloses ((t, PEvent.popupopen) :: r) := by
              rw [h1]; rfl
      | popupclose =>
        have hc' : closesSeparated (some t) r = true := by
          simp only [closesSeparated, Bool.and_eq_true] at hc
          exact hc.2
        have hstep : stepPopup ⟨false, [], c⟩ (t, PEvent.popupclose)
            = ⟨true, [t + 200], c⟩ := by
          simp [stepPopup, fireDue]
        have h1 := iho t true c (some t) hs' hc'
        have hw := openWithin_eq_openBefore r t hs'
        have hL : finishArb ⟨false, [], c⟩ ((t, PEvent.popupclose) :: r)
            = finishArb ⟨true, [t + 200], c⟩ r := by
          simp only [finishArb, hstep]
        rw [hL, h1]
        show (c + if (true && !openBefore (t + 200) r) = true then 1 else 0)
            + genuineCloses r
          = c + ((if openWithin t r then 0 else 1) + genuineCloses r)
        rw [hw]
        cases hob : openBefore (t + 200) r <;> simp <;> omega
    · intro t0 f c ob hs hc
      have hs' : sortedChain (some t) r = true := by
        cases ob with
        | none => simpa [sortedChain] using hs
        | some b =>
          simp only [sortedChain, Bool.and_eq_true] at hs
          exact hs.2
      cases ev with
      | popupopen =>
        have hc' : closesSeparated (some t0) r = true := by
          simpa [closesSeparated] using hc
        have hGen : genuineCloses ((t, PEvent.popupopen) :: r) = genuineCloses r := rfl
        by_cases hle : t0 + 200 ≤ t
        · have hob : openBefore (t0 + 200) ((t, PEvent.popupopen) :: r) = false := by
            simp only [openBefore, List.any_cons, Bool.or_eq_false_iff]
            refine ⟨by simp; omega, ?_⟩
            exact openBefore_false_of_sorted r t (t0 + 200) hs' (by omega)
          have hstep : stepPopup ⟨f, [t0 + 200], c⟩ (t, PEvent.popupopen)
              = ⟨false, [], c + if f then 1 else 0⟩ := by
            simp only [stepPopup, fireDue_single_fired t t0 c f hle]
          have h1 := ihn (c + if f then 1 else 0) (some t) (some t0) hs' hc'
          have hL : finishArb ⟨f, [t0 + 200], c⟩ ((t, PEvent.popupopen) :: r)
              = finishArb ⟨false, [], c + if f then 1 else 0⟩ r := by
            simp only [finishArb, hstep]
          rw [hL, h1, hGen, hob]
          cases f <;> simp <;> omega
        · have hob : openBefore (t0 + 200) ((t, PEvent.popupopen) :: r) = true := by
            simp only [openBefore, List.any_cons, Bool.or_eq_true]
            left
            simp
            omega
          have hstep : stepPopup ⟨f, [t0 + 200], c⟩ (t, PEvent.popupopen)
              = ⟨false, [t0 + 200], c⟩ := by
            simp only [stepPopup, fireDue_single_pending t t0 c f hle]
          have h1 := iho t0 false c (some t) hs' hc'
          have hL : finishArb ⟨f, [t0 + 200], c⟩ ((t, PEvent.popupopen) :: r)
              = finishArb ⟨false, [t0 + 200], c⟩ r := by
            simp only [finishArb, hstep]
          rw [hL, h1, hGen, hob]
          simp
      | popupclose =>
        have hsep : t0 + 200 < t ∧ closesSeparated (some t) r = true := by
          simp only [closesSeparated, Bool.and_eq_true, decide_eq_true_eq] at hc
          exact hc
        have hle : t0 + 200 ≤ t := le_of_lt hsep.1
        have hob : openBefore (t0 + 200) ((t, PEvent.popupclose) :: r) = false := by
          simp only [openBefore, List.any_cons, Bool.or_eq_false_iff]
          refine ⟨by simp, ?_⟩
          exact openBefore_false_of_sorted r t (t0 + 200) hs' (by omega)
        have hw := openWithin_eq_openBefore r t hs'
        have hstep : stepPopup ⟨f, [t0 + 200], c⟩ (t, PEvent.popupclose)
            = ⟨true, [t + 200], c + if f then 1 else 0⟩ := by
          simp only [stepPopup, fireDue_single_fired t t0 c f hle, List.nil_append]
        have h1 := iho t true (c + if f then 1 else 0) (some t) hs' hsep.2
        have hL : finishArb ⟨f, [t0 + 200], c⟩ ((t, PEvent.popupclose) :: r)
            = finishArb ⟨true, [t + 200], c + if f then 1 else 0⟩ r := by
          simp only [finishArb, hstep]
        have hGen : genuineCloses ((t, PEvent.popupclose) :: r)
            = (if openWithin t r then 0 else 1) + genuineCloses r := rfl
        rw [hL, h1, hGen, hob, hw]
        cases f <;> cases hob2 : openBefore (t + 200) r <;> simp <;> omega

/-- C4 amended: provided consecutive popupclose events are separated by
more than the debounce window (so no stale deselection timer from an
earlier close is still pending when a close occurs), the arbiter emits
exactly one deselection signal per close with no popupopen strictly
within the following 200ms window, and none for a close followed by a
popupopen within the window: the total signal count equals the number of
genuine closes. -/
theorem c4_debounced_deselection (tr : List (Nat × PEvent))
    (hs : sortedChain none tr = true)
    (hc : closesSeparated none tr = true) :
    deselectCount tr = genuineCloses tr := by
  have h := (finishArb_spec tr).1 0 none none hs hc
  simpa [deselectCount] using h

/-- C4 witness: the amended theorem applied to the concrete session
close@0, open@300, close@600 — both closes are genuine (the open at 300
is outside the window of the close at 0), and exactly two deselection
signals are emitted. -/
theorem c4_debounced_deselection_witness :
    sortedChain none
        [(0, PEvent.popupclose), (300, PEvent.popupopen), (600, PEvent.popupclose)]
      = true
    ∧ closesSeparated none
        [(0, PEvent.popupclose), (300, PEvent.popupopen), (600, PEvent.popupclose)]
      = true
    ∧ deselectCount
        [(0, PEvent.popupclose), (300, PEvent.popupopen), (600, PEvent.popupclose)]
      = genuineCloses
        [(0, PEvent.popupclose), (300, PEvent.popupopen), (600, PEvent.popupclose)] :=
  ⟨by decide, by decide,
   c4_debounced_deselection
     [(0, PEvent.popupclose), (300, PEvent.popupopen), (600, PEvent.popupclose)]
     (by decide) (by decide)⟩

/-! ## Route synchronizer effects (lines 359-444)

Two effects govern the route overlay.  The reset effect (lines 362-364,
deps [routeDestination, showRoute]) clears hasFittedRouteRef.  The route
effect (lines 367-444, deps [showRoute, userLocation, routeDestination,
isPickingLocation, mapInstance]) synchronously removes any previous
overlay, starts a fetchRoute invocation owning a fresh isCancelled flag,
and returns a cleanup that sets the flag and removes the overlay again.
React re-runs an effect exactly when its dependencies changed, running
the pending cleanup first.  We model a component history as a trace of
events: render (with the new routing inputs), unmount, and the
asynchronous resolution of the i-th fetchRoute invocation. -/

/-- One fetchRoute invocation: the inputs its closure captured, its
isCancelled flag, and whether its promise already resolved. -/
structure Attempt where
  inputs : RouteInputs
  cancelled : Bool
  done : Bool
deriving DecidableEq, Repr

/-- State of the map and the route effects' refs.  mapOverlays is the
multiset of route overlays currently attached to the Leaflet map (each
tagged with the attempt that attached it); routeLayer is
routeLayerRef.current; fits records which attempts ran fitBounds. -/
structure RState where
  lastInputs : Option RouteInputs
  attempts : List Attempt
  routeLayer : Option (Nat × Overlay)
  mapOverlays : List (Nat × Overlay)
  hasFitted : Bool
  fits : List Nat
deriving DecidableEq, Repr

/-- Events of a component history. -/
inductive REvent where
  | render : RouteInputs → REvent
  | unmount : REvent
  | resolve : Nat → FetchResult → REvent
deriving DecidableEq, Repr

/-- Lines 371-374 and 438-441: remove the overlay held by routeLayerRef
from the map and null the ref. -/
def removeOverlay (s : RState) : RState :=
  match s.routeLayer with
  | none => s
  | some l => { s with routeLayer := none, mapOverlays := s.mapOverlays.erase l }

/-- Cleanup sets the current (last-started) invocation's isCancelled. -/
def cancelLast : List Attempt → List Attempt
  | [] => []
  | [a] => [{ a with cancelled := true }]
  | a :: b :: rest => a :: cancelLast (b :: rest)

/-- Did the route effect's dependencies change since the last render
(true on mount)?  Value equality stands in for reference equality of the
props. -/
def routeDepsChanged (prev : Option RouteInputs) (inp : RouteInputs) : Bool :=
  match prev with
  | none => true
  | some p => decide (p ≠ inp)

/-- Did the reset effect's dependencies [routeDestination, showRoute]
change since the last render (true on mount)? -/
def resetDepsChanged (prev : Option RouteInputs) (inp : RouteInputs) : Bool :=
  match prev with
  | none => true
  | some p => decide (p.dest ≠ inp.dest) || decide (p.showRoute ≠ inp.showRoute)

/-- A re-render with new routing inputs: if the route effect's deps
changed, its cleanup runs (cancel the current invocation, remove the
overlay); if the reset effect's deps changed, hasFittedRouteRef is
cleared; if the route effect's deps changed, a fresh fetchRoute
invocation starts. -/
def stepRender (s : RState) (inp : RouteInputs) : RState :=
  let s1 := if routeDepsChanged s.lastInputs inp
    then { removeOverlay s with attempts := cancelLast s.attempts }
    else s
  let s2 := if resetDepsChanged s.lastInputs inp
    then { s1 with hasFitted := false }
    else s1
  let s3 := if routeDepsChanged s.lastInputs inp
    then { s2 with attempts := s2.attempts ++ [⟨inp, false, false⟩] }
    else s2
  { s3 with lastInputs := some inp }

/-- Unmount runs the route effect's cleanup. -/
def stepUnmount (s : RState) : RState :=
  { removeOverlay s with attempts := cancelLast s.attempts, lastInputs := none }

/-- The i-th fetchRoute invocation's promise resolves: nothing ever
happens for an ineligible invocation (its guard prevented the fetch) or
an already-resolved one; otherwise the continuation embedded in
fetchRouteResult runs, attaching an overlay and possibly fitting unless
the invocation was cancelled. -/
def stepResolve (s : RState) (i : Nat) (resp : FetchResult) : RState :=
  match s.attempts[i]? with
  | none => s
  | some a =>
    if a.done || !(eligible a.inputs) then s
    else
      let s1 := { s with attempts := s.attempts.set i { a with done := true } }
      match fetchRouteResult a.cancelled a.inputs resp s.hasFitted with
      | none => s1
      | some (ov, fit) =>
        { s1 with routeLayer := some (i, ov)
                  mapOverlays := s1.mapOverlays ++ [(i, ov)]
                  hasFitted := true
                  fits := if fit then s1.fits ++ [i] else s1.fits }

/-- One event of the component history. -/
def stepRoute (s : RState) : REvent → RState
  | REvent.render inp => stepRender s inp
  | REvent.unmount => stepUnmount s
  | REvent.resolve i resp => stepResolve s i resp

/-- Initial state: fresh component, nothing mounted. -/
def initRState : RState := ⟨none, [], none, [], false, []⟩

/-- Run a history suffix from a state. -/
def runRouteFrom (s : RState) (tr : List REvent) : RState :=
  tr.foldl stepRoute s

/-- Run a whole component history. -/
def runRoute (tr : List REvent) : RState :=
  runRouteFrom initRState tr

theorem removeOverlay_routeLayer (s : RState) :
    (removeOverlay s).routeLayer = none := by
  cases h : s.routeLayer <;> simp [removeOverlay, h]

theorem removeOverlay_attempts (s : RState) :
    (removeOverlay s).attempts = s.attempts := by
  cases h : s.routeLayer <;> simp [removeOverlay, h]

theorem removeOverlay_hasFitted (s : RState) :
    (removeOverlay s).hasFitted = s.hasFitted := by
  cases h : s.routeLayer <;> simp [removeOverlay, h]

theorem removeOverlay_fits (s : RState) :
    (removeOverlay s).fits = s.fits := by
  cases h : s.routeLayer <;> simp [removeOverlay, h]

theorem removeOverlay_lastInputs (s : RState) :
    (removeOverlay s).lastInputs = s.lastInputs := by
  cases h : s.routeLayer <;> simp [removeOverlay, h]

theorem stepRender_attempts (s : RState) (inp : RouteInputs) :
    (stepRender s inp).attempts
      = if routeDepsChanged s.lastInputs inp
        then cancelLast s.attempts ++ [⟨inp, false, false⟩]
        else s.attempts := by
  by_cases h1 : routeDepsChanged s.lastInputs inp = true <;>
    by_cases h2 : resetDepsChanged s.lastInputs inp = true <;>
      simp [stepRender, h1, h2, removeOverlay_attempts]

theorem stepRender_mapOverlays (s : RState) (inp : RouteInputs) :
    (stepRender s inp).mapOverlays
      = if routeDepsChanged s.lastInputs inp
        then (removeOverlay s).mapOverlays
        else s.mapOverlays := by
  by_cases h1 : routeDepsChanged s.lastInputs inp = true <;>
    by_cases h2 : resetDepsChanged s.lastInputs inp = true <;>
      simp [stepRender, h1, h2]

theorem stepRender_routeLayer (s : RState) (inp : RouteInputs) :
    (stepRender s inp).routeLayer
      = if routeDepsChanged s.lastInputs inp then none else s.routeLayer := by
  by_cases h1 : routeDepsChanged s.lastInputs inp = true <;>
    by_cases h2 : resetDepsChanged s.lastInputs inp = true <;>
      simp [stepRender, h1, h2, removeOverlay_routeLayer]

theorem stepRender_hasFitted (s : RState) (inp : RouteInputs) :
    (stepRender s inp).hasFitted
      = if resetDepsChanged s.lastInputs inp then false else s.hasFitted := by
  by_cases h1 : routeDepsChanged s.lastInputs inp = true <;>
    by_cases h2 : resetDepsChanged s.lastInputs inp = true <;>
      simp [stepRender, h1, h2, removeOverlay_hasFitted]

theorem stepRender_fits (s : RState) (inp : RouteInputs) :
    (stepRender s inp).fits = s.fits := by
  by_cases h1 : routeDepsChanged s.lastInputs inp = true <;>
    by_cases h2 : resetDepsChanged s.lastInputs inp = true <;>
      simp [stepRender, h1, h2, removeOverlay_fits]

theorem cancelLast_length (l : List Attempt) : (cancelLast l).length = l.length := by
  induction l with
  | nil => rfl
  | cons a l ih =>
    cases l with
    | nil => rfl
    | cons b rest => simpa [cancelLast] using ih

theorem cancelLast_getElem? (l : List Attempt) (i : Nat) (a : Attempt)
    (h : l[i]? = some a) :
    (cancelLast l)[i]?
      = some { a with cancelled := a.cancelled || decide (i + 1 = l.length) } := by
  induction l generalizing i with
  | nil => cases h
  | cons a0 l ih =>
    cases l with
    | nil =>
      cases i with
      | zero =>
        simp only [List.getElem?_cons_zero, Option.some.injEq] at h
        subst h
        simp [cancelLast]
      | succ j => simp at h
    | cons b rest =>
      cases i with
      | zero =>
        simp only [List.getElem?_cons_zero, Option.some.injEq] at h
        subst h
        have hlen : decide (0 + 1 = (a0 :: b :: rest).length) = false := by
          simp
        simp [cancelLast, hlen]
      | succ j =>
        simp only [List.getElem?_cons_succ] at h
        have := ih j h
        have hd : decide (j + 1 = (b :: rest).length)
            = decide (j + 1 + 1 = (a0 :: b :: rest).length) := by
          rw [decide_eq_decide]
          simp
        simp only [cancelLast, List.getElem?_cons_succ]
        rw [this, hd]

theorem stepResolve_eq_oob (s : RState) (j : Nat) (resp : FetchResult)
    (h : s.attempts[j]? = none) : stepResolve s j resp = s := by
  simp [stepResolve, h]

theorem stepResolve_eq_skip (s : RState) (j : Nat) (resp : FetchResult)
    (aj : Attempt) (h : s.attempts[j]? = some aj)
    (hd : (aj.done || !(eligible aj.inputs)) = true) :
    stepResolve s j resp = s := by
  simp [stepResolve, h, hd]

theorem stepResolve_eq_done (s : RState) (j : Nat) (resp : FetchResult)
    (aj : Attempt) (h : s.attempts[j]? = some aj)
    (hd : (aj.done || !(eligible aj.inputs)) = false)
    (hf : fetchRouteResult aj.cancelled aj.inputs resp s.hasFitted = none) :
    stepResolve s j resp
      = { s with attempts := s.attempts.set j { aj with done := true } } := by
  simp [stepResolve, h, hd, hf]

theorem stepResolve_eq_attach (s : RState) (j : Nat) (resp : FetchResult)
    (aj : Attempt) (ov : Overlay) (fit : Bool)
    (h : s.attempts[j]? = some aj)
    (hd : (aj.done || !(eligible aj.inputs)) = false)
    (hf : fetchRouteResult aj.cancelled aj.inputs resp s.hasFitted
      = some (ov, fit)) :
    stepResolve s j resp
      = { s with attempts := s.attempts.set j { aj with done := true }
                 routeLayer := some (j, ov)
                 mapOverlays := s.mapOverlays ++ [(j, ov)]
                 hasFitted := true
                 fits := if fit then s.fits ++ [j] else s.fits } := by
  simp [stepResolve, h, hd, hf]

/-- An attempt index that is cancelled in a state. -/
def cancelledAt (s : RState) (i : Nat) : Prop :=
  ∃ a, s.attempts[i]? = some a ∧ a.cancelled = true

theorem cancelledAt_cancelLast (l : List Attempt) (i : Nat) (a : Attempt)
    (h : l[i]? = some a) (hc : a.cancelled = true) :
    ∃ b, (cancelLast l)[i]? = some b ∧ b.cancelled = true := by
  refine ⟨_, cancelLast_getElem? l i a h, ?_⟩
  simp [hc]

theorem cancelledAt_mono (s : RState) (e : REvent) (i : Nat)
    (h : cancelledAt s i) : cancelledAt (stepRoute s e) i := by
  obtain ⟨a, ha, hc⟩ := h
  have hlt : i < s.attempts.length := by
    by_contra hge
    rw [List.getElem?_eq_none (by omega)] at ha
    cases ha
  cases e with
  | render inp =>
    show cancelledAt (stepRender s inp) i
    unfold cancelledAt
    rw [stepRender_attempts]
    by_cases hch : routeDepsChanged s.lastInputs inp = true
    · rw [if_pos hch]
      obtain ⟨b, hb, hbc⟩ := cancelledAt_cancelLast s.attempts i a ha hc
      refine ⟨b, ?_, hbc⟩
      rw [List.getElem?_append_left (by rw [cancelLast_length]; exact hlt)]
      exact hb
    · rw [if_neg hch]
      exact ⟨a, ha, hc⟩
  | unmount =>
    show cancelledAt (stepUnmount s) i
    obtain ⟨b, hb, hbc⟩ := cancelledAt_cancelLast s.attempts i a ha hc
    exact ⟨b, hb, hbc⟩
  | resolve j resp =>
    show cancelledAt (stepResolve s j resp) i
    have hset : ∀ (t : RState),
        t.attempts = s.attempts.set j { (s.attempts[j]?.getD a) with done := true } →
        s.attempts[j]?.isSome = true → cancelledAt t i := by
      intro t ht hj
      by_cases hij : j = i
      · subst hij
        refine ⟨{ a with done := true }, ?_, hc⟩
        rw [ht, ha]
        simp only [Option.getD_some]
        exact List.getElem?_set_self hlt
      · refine ⟨a, ?_, hc⟩
        rw [ht, List.getElem?_set_ne hij]
        exact ha
    cases hj : s.attempts[j]? with
    | none =>
      rw [stepResolve_eq_oob s j resp hj]
      exact ⟨a, ha, hc⟩
    | some aj =>
      by_cases hd : (aj.done || !(eligible aj.inputs)) = true
      · rw [stepResolve_eq_skip s j resp aj hj hd]
        exact ⟨a, ha, hc⟩
      · rw [Bool.not_eq_true] at hd
        cases hf : fetchRouteResult aj.cancelled aj.inputs resp s.hasFitted with
        | none =>
          rw [stepResolve_eq_done s j resp aj hj hd hf]
          exact hset _ (by simp [hj]) (by simp [hj])
        | some p =>
          obtain ⟨ov, fit⟩ := p
          rw [stepResolve_eq_attach s j resp aj ov fit hj hd hf]
          exact hset _ (by simp [hj]) (by simp [hj])

theorem length_le_step (s : RState) (e : REvent) :
    s.attempts.length ≤ (stepRoute s e).attempts.length := by
  cases e with
  | render inp =>
    show s.attempts.length ≤ (stepRender s inp).attempts.length
    rw [stepRender_attempts]
    by_cases hch : routeDepsChanged s.lastInputs inp = true <;>
      simp [hch, cancelLast_length]
  | unmount =>
    show s.attempts.length ≤ (stepUnmount s).attempts.length
    simp [stepUnmount, cancelLast_length]
  | resolve j resp =>
    show s.attempts.length ≤ (stepResolve s j resp).attempts.length
    cases hj : s.attempts[j]? with
    | none => rw [stepResolve_eq_oob s j resp hj]
    | some aj =>
      by_cases hd : (aj.done || !(eligible aj.inputs)) = true
      · rw [stepResolve_eq_skip s j resp aj hj hd]
      · rw [Bool.not_eq_true] at hd
        cases hf : fetchRouteResult aj.cancelled aj.inputs resp s.hasFitted with
        | none =>
          rw [stepResolve_eq_done s j resp aj hj hd hf]
          simp
        | some p =>
          obtain ⟨ov, fit⟩ := p
          rw [stepResolve_eq_attach s j resp aj ov fit hj hd hf]
          simp

/-- Reachability invariant of the route machine: every invocation but
the last is cancelled; the map carries exactly the overlay held in
routeLayerRef (or none); and while the current invocation is live
(uncancelled, unresolved) no overlay is attached. -/
structure RInv (s : RState) : Prop where
  allButLast : ∀ (i : Nat) (a : Attempt), s.attempts[i]? = some a →
    i + 1 < s.attempts.length → a.cancelled = true
  layerMatch : (s.routeLayer = none ∧ s.mapOverlays = [])
    ∨ (∃ l, s.routeLayer = some l ∧ s.mapOverlays = [l])
  lastClean : ∀ (i : Nat) (a : Attempt), s.attempts[i]? = some a →
    a.cancelled = false → a.done = false → s.routeLayer = none

theorem RInv_init : RInv initRState := by
  refine ⟨?_, ?_, ?_⟩
  · intro i a ha _
    simp [initRState] at ha
  · left
    exact ⟨rfl, rfl⟩
  · intro i a ha _ _
    simp [initRState] at ha

theorem removeOverlay_mapOverlays_of_RInv (s : RState) (h : RInv s) :
    (removeOverlay s).mapOverlays = [] := by
  rcases h.layerMatch with ⟨hn, hm⟩ | ⟨l, hs, hm⟩
  · simp [removeOverlay, hn, hm]
  · simp [removeOverlay, hs, hm]

theorem cancelLast_all_cancelled (s : RState) (h : RInv s) (i : Nat)
    (a : Attempt) (ha : (cancelLast s.attempts)[i]? = some a) :
    a.cancelled = true := by
  have hlt : i < s.attempts.length := by
    by_contra hge
    rw [List.getElem?_eq_none (by rw [cancelLast_length]; omega)] at ha
    cases ha
  have horig : s.attempts[i]? = some (s.attempts.get ⟨i, hlt⟩) := by
    simp [List.getElem?_eq_getElem hlt]
  have := cancelLast_getElem? s.attempts i _ horig
  rw [this] at ha
  injection ha with hb
  subst hb
  simp only
  rcases Nat.lt_or_ge (i + 1) s.attempts.length with hi | hi
  · rw [h.allButLast i _ horig hi]
    rfl
  · have : i + 1 = s.attempts.length := by omega
    simp [this]

theorem RInv_step (s : RState) (e : REvent) (h : RInv s) :
    RInv (stepRoute s e) := by
  cases e with
  | render inp =>
    show RInv (stepRender s inp)
    by_cases hch : routeDepsChanged s.lastInputs inp = true
    · refine ⟨?_, ?_, ?_⟩
      · intro i a ha hlen
        rw [stepRender_attempts, if_pos hch] at ha hlen
        simp only [List.length_append, List.length_cons, List.length_nil,
          cancelLast_length] at hlen
        have hilt : i < s.attempts.length := by omega
        rw [List.getElem?_append_left (by rw [cancelLast_length]; exact hilt)] at ha
        exact cancelLast_all_cancelled s h i a ha
      · left
        rw [stepRender_routeLayer, if_pos hch, stepRender_mapOverlays, if_pos hch]
        exact ⟨rfl, removeOverlay_mapOverlays_of_RInv s h⟩
      · intro i a _ _ _
        rw [stepRender_routeLayer, if_pos hch]
    · refine ⟨?_, ?_, ?_⟩
      · intro i a ha hlen
        rw [stepRender_attempts, if_neg hch] at ha hlen
        exact h.allButLast i a ha hlen
      · rw [stepRender_routeLayer, if_neg hch, stepRender_mapOverlays, if_neg hch]
        exact h.layerMatch
      · intro i a ha hc hd
        rw [stepRender_attempts, if_neg hch] at ha
        rw [stepRender_routeLayer, if_neg hch]
        exact h.lastClean i a ha hc hd
  | unmount =>
    show RInv (stepUnmount s)
    refine ⟨?_, ?_, ?_⟩
    · intro i a ha _
      exact cancelLast_all_cancelled s h i a ha
    · left
      refine ⟨removeOverlay_routeLayer s, ?_⟩
      show (removeOverlay s).mapOverlays = []
      exact removeOverlay_mapOverlays_of_RInv s h
    · intro i a ha hc _
      exact absurd (cancelLast_all_cancelled s h i a ha) (by rw [hc]; simp)
  | resolve j resp =>
    show RInv (stepResolve s j resp)
    cases hj : s.attempts[j]? with
    | none => rw [stepResolve_eq_oob s j resp hj]; exact h
    | some aj =>
      by_cases hd : (aj.done || !(eligible aj.inputs)) = true
      · rw [stepResolve_eq_skip s j resp aj hj hd]; exact h
      · rw [Bool.not_eq_true] at hd
        have hjlt : j < s.attempts.length := by
          by_contra hge
          rw [List.getElem?_eq_none (by omega)] at hj
          cases hj
        have hdone : aj.done = false := by
          rcases Bool.or_eq_false_iff.mp hd with ⟨h1, _⟩
          exact h1
        cases hf : fetchRouteResult aj.cancelled aj.inputs resp s.hasFitted with
        | none =>
          rw [stepResolve_eq_done s j resp aj hj hd hf]
          refine ⟨?_, ?_, ?_⟩
          · intro i a ha hlen
            simp only [List.length_set] at hlen
            by_cases hij : j = i
            · subst hij
              rw [List.getElem?_set_self hjlt] at ha
              injection ha with hb
              subst hb
              exact h.allButLast j aj hj hlen
            · rw [List.getElem?_set_ne hij] at ha
              exact h.allButLast i a ha hlen
          · exact h.layerMatch
          · intro i a ha hc hdn
            by_cases hij : j = i
            · subst hij
              rw [List.getElem?_set_self hjlt] at ha
              injection ha with hb
              rw [← hb] at hdn
              cases hdn
            · rw [List.getElem?_set_ne hij] at ha
              exact h.lastClean i a ha hc hdn
        | some p =>
          obtain ⟨ov, fit⟩ := p
          have hcanc : aj.cancelled = false := by
            by_contra hcc
            rw [Bool.not_eq_false] at hcc
            rw [hcc, fetchRouteResult_cancelled] at hf
            cases hf
          have hjlast : j + 1 = s.attempts.length := by
            rcases Nat.lt_or_ge (j + 1) s.attempts.length with hl | hl
            · exact absurd (h.allButLast j aj hj hl) (by rw [hcanc]; simp)
            · omega
          have hlayer : s.routeLayer = none := h.lastClean j aj hj hcanc hdone
          have hmap : s.mapOverlays = [] := by
            rcases h.layerMatch with ⟨_, hm⟩ | ⟨l, hs, _⟩
            · exact hm
            · rw [hlayer] at hs; cases hs
          rw [stepResolve_eq_attach s j resp aj ov fit hj hd hf]
          refine ⟨?_, ?_, ?_⟩
          · intro i a ha hlen
            simp only [List.length_set] at hlen
            by_cases hij : j = i
            · subst hij
              omega
            · rw [List.getElem?_set_ne hij] at ha
              exact h.allButLast i a ha hlen
          · right
            refine ⟨(j, ov), rfl, ?_⟩
            show s.mapOverlays ++ [(j, ov)] = [(j, ov)]
            rw [hmap]
            rfl
          · intro i a ha hc hdn
            by_cases hij : j = i
            · subst hij
              rw [List.getElem?_set_self hjlt] at ha
              injection ha with hb
              rw [← hb] at hdn
              cases hdn
            · rw [List.getElem?_set_ne hij] at ha
              have hilt : i < s.attempts.length := by
                by_contra hge
                rw [List.getElem?_eq_none (by omega)] at ha
                cases ha
              have : i + 1 = s.attempts.length := by
                rcases Nat.lt_or_ge (i + 1) s.attempts.length with hl | hl
                · exact absurd (h.allButLast i a ha hl) (by rw [hc]; simp)
                · omega
              omega

theorem RInv_runFrom (s : RState) (tr : List REvent) (h : RInv s) :
    RInv (runRouteFrom s tr) := by
  induction tr generalizing s with
  | nil => exact h
  | cons e r ih => exact ih (stepRoute s e) (RInv_step s e h)

theorem RInv_run (tr : List REvent) : RInv (runRoute tr) :=
  RInv_runFrom initRState tr RInv_init

/-- Does this event tear down the current route-effect invocation?  An
unmount always does; a re-render does iff the route effect's
dependencies changed (origin, destination, enabled flag or picking
flag); an asynchronous resolution never does. -/
def tearsDown (s : RState) : REvent → Bool
  | REvent.render inp => routeDepsChanged s.lastInputs inp
  | REvent.unmount => true
  | REvent.resolve _ _ => false

/-- Does the history suffix, run from this state, contain a teardown? -/
def containsTeardown : RState → List REvent → Bool
  | _, [] => false
  | s, e :: r => tearsDown s e || containsTeardown (stepRoute s e) r

theorem teardown_cancels (s : RState) (e : REvent) (i : Nat) (h : RInv s)
    (ht : tearsDown s e = true) (hi : i < s.attempts.length) :
    cancelledAt (stepRoute s e) i := by
  have hlt2 : i < (cancelLast s.attempts).length := by
    rw [cancelLast_length]; exact hi
  cases e with
  | render inp =>
    have hch : routeDepsChanged s.lastInputs inp = true := ht
    have hmem : (stepRender s inp).attempts[i]?
        = some ((cancelLast s.attempts).get ⟨i, hlt2⟩) := by
      rw [stepRender_attempts, if_pos hch, List.getElem?_append_left hlt2]
      simp [List.getElem?_eq_getElem hlt2]
    exact ⟨_, hmem, cancelLast_all_cancelled s h i _
      (by simp [List.getElem?_eq_getElem hlt2])⟩
  | unmount =>
    have hmem : (stepUnmount s).attempts[i]?
        = some ((cancelLast s.attempts).get ⟨i, hlt2⟩) := by
      show (cancelLast s.attempts)[i]? = _
      simp [List.getElem?_eq_getElem hlt2]
    exact ⟨_, hmem, cancelLast_all_cancelled s h i _
      (by simp [List.getElem?_eq_getElem hlt2])⟩
  | resolve j resp => cases ht

theorem cancelledAt_mono_run (s : RState) (tr : List REvent) (i : Nat)
    (h : cancelledAt s i) : cancelledAt (runRouteFrom s tr) i := by
  induction tr generalizing s with
  | nil => exact h
  | cons e r ih => exact ih (stepRoute s e) (cancelledAt_mono s e i h)

theorem length_le_run (s : RState) (tr : List REvent) :
    s.attempts.length ≤ (runRouteFrom s tr).attempts.length := by
  induction tr generalizing s with
  | nil => exact le_refl _
  | cons e r ih =>
    exact le_trans (length_le_step s e) (ih (stepRoute s e))

theorem teardown_run_cancels (mid : List REvent) (s : RState) (i : Nat)
    (h : RInv s) (hi : i < s.attempts.length)
    (ht : containsTeardown s mid = true) :
    cancelledAt (runRouteFrom s mid) i := by
  induction mid generalizing s with
  | nil => cases ht
  | cons e r ih =>
    rcases Bool.or_eq_true_iff.mp ht with h1 | h1
    · exact cancelledAt_mono_run (stepRoute s e) r i (teardown_cancels s e i h h1 hi)
    · exact ih (stepRoute s e) (RInv_step s e h)
        (lt_of_lt_of_le hi (length_le_step s e)) h1

theorem stepResolve_frame_of_cancelled (s : RState) (i : Nat)
    (resp : FetchResult) (h : cancelledAt s i) :
    (stepResolve s i resp).mapOverlays = s.mapOverlays
    ∧ (stepResolve s i resp).routeLayer = s.routeLayer
    ∧ (stepResolve s i resp).fits = s.fits
    ∧ (stepResolve s i resp).hasFitted = s.hasFitted := by
  obtain ⟨a, ha, hc⟩ := h
  by_cases hd : (a.done || !(eligible a.inputs)) = true
  · rw [stepResolve_eq_skip s i resp a ha hd]
    exact ⟨rfl, rfl, rfl, rfl⟩
  · rw [Bool.not_eq_true] at hd
    have hf : fetchRouteResult a.cancelled a.inputs resp s.hasFitted = none := by
      rw [hc]
      exact fetchRouteResult_cancelled a.inputs resp s.hasFitted
    rw [stepResolve_eq_done s i resp a ha hd hf]
    exact ⟨rfl, rfl, rfl, rfl⟩

/-- C1: if the fetchRoute invocation started as attempt i is torn down
(any change to origin, destination, the enabled flag or the picking
flag, or an unmount — anywhere in the later history mid) before its
geometry response resolves, then its resolution mutates nothing: it
attaches no overlay (neither to routeLayerRef nor to the map), records
no view-fit and leaves the fitted flag alone.  In particular every
superseded fetch's completion is a no-op and only the most recently
started fetch can mutate the route overlay. -/
theorem c1_superseded_fetch_noop (pre mid : List REvent) (i : Nat)
    (resp : FetchResult)
    (hi : i < (runRoute pre).attempts.length)
    (ht : containsTeardown (runRoute pre) mid = true) :
    (runRoute (pre ++ mid ++ [REvent.resolve i resp])).mapOverlays
        = (runRoute (pre ++ mid)).mapOverlays
    ∧ (runRoute (pre ++ mid ++ [REvent.resolve i resp])).routeLayer
        = (runRoute (pre ++ mid)).routeLayer
    ∧ (runRoute (pre ++ mid ++ [REvent.resolve i resp])).fits
        = (runRoute (pre ++ mid)).fits
    ∧ (runRoute (pre ++ mid ++ [REvent.resolve i resp])).hasFitted
        = (runRoute (pre ++ mid)).hasFitted := by
  have hsplit : runRoute (pre ++ mid) = runRouteFrom (runRoute pre) mid := by
    simp [runRoute, runRouteFrom, List.foldl_append]
  have hsplit2 : runRoute (pre ++ mid ++ [REvent.resolve i resp])
      = stepResolve (runRoute (pre ++ mid)) i resp := by
    simp [runRoute, runRouteFrom, List.foldl_append]
    rfl
  have hcanc : cancelledAt (runRoute (pre ++ mid)) i := by
    rw [hsplit]
    exact teardown_run_cancels mid (runRoute pre) i (RInv_run pre) hi ht
  rw [hsplit2]
  exact stepResolve_frame_of_cancelled (runRoute (pre ++ mid)) i resp hcanc

/-- Routing inputs used by the C1/C3/C5 witnesses: an eligible pair. -/
def inpA : RouteInputs := ⟨true, some ⟨41, 28⟩, some ⟨"d", ⟨42, 30⟩⟩, false⟩

/-- Same destination, moved origin: route deps changed, fit key kept. -/
def inpB : RouteInputs := ⟨true, some ⟨41, 29⟩, some ⟨"d", ⟨42, 30⟩⟩, false⟩

/-- C1 witness: the theorem applied to the concrete history in which
attempt 0 starts, a re-render with a moved origin supersedes it, and
attempt 0's response then arrives: nothing changes. -/
theorem c1_superseded_fetch_noop_witness :
    0 < (runRoute [REvent.render inpA]).attempts.length
    ∧ containsTeardown (runRoute [REvent.render inpA]) [REvent.render inpB] = true
    ∧ (runRoute ([REvent.render inpA] ++ [REvent.render inpB]
        ++ [REvent.resolve 0 (FetchResult.ok [[(29, 41), (30, 42)]])])).mapOverlays
      = (runRoute ([REvent.render inpA] ++ [REvent.render inpB])).mapOverlays :=
  ⟨by decide, by decide,
   (c1_superseded_fetch_noop [REvent.render inpA] [REvent.render inpB] 0
      (FetchResult.ok [[(29, 41), (30, 42)]]) (by decide) (by decide)).1⟩

/-- C3: at most one route overlay is ever attached to the map — after
any component history the attached-overlay count is at most 1 — and on
any transition of the routing inputs (a re-render whose route deps
changed) the previous overlay is removed synchronously by the render
event itself, before any new result can arrive: immediately after such a
render the map holds no route overlay at all. -/
theorem c3_single_overlay_invariant :
    (∀ tr : List REvent, (runRoute tr).mapOverlays.length ≤ 1)
    ∧ (∀ (tr : List REvent) (inp : RouteInputs),
        routeDepsChanged (runRoute tr).lastInputs inp = true →
        (runRoute (tr ++ [REvent.render inp])).mapOverlays = []) := by
  constructor
  · intro tr
    rcases (RInv_run tr).layerMatch with ⟨_, hm⟩ | ⟨l, _, hm⟩ <;> simp [hm]
  · intro tr inp hch
    have hsplit : runRoute (tr ++ [REvent.render inp])
        = stepRender (runRoute tr) inp := by
      simp [runRoute, runRouteFrom, List.foldl_append]
      rfl
    rw [hsplit, stepRender_mapOverlays, if_pos hch]
    exact removeOverlay_mapOverlays_of_RInv _ (RInv_run tr)

/-- C3 witness: the theorem applied to the concrete transition from
inpA to inpB (origin moved): right after the re-render the map carries
no overlay. -/
theorem c3_single_overlay_invariant_witness :
    routeDepsChanged (runRoute [REvent.render inpA]).lastInputs inpB = true
    ∧ (runRoute ([REvent.render inpA] ++ [REvent.render inpB])).mapOverlays = [] :=
  ⟨by decide,
   c3_single_overlay_invariant.2 [REvent.render inpA] inpB (by decide)⟩

/-- Does this event leave the fit key — the (routeDestination,
showRoute) dependency pair of the reset effect — untouched? -/
def keepsFitKey (s : RState) : REvent → Bool
  | REvent.render inp => !(resetDepsChanged s.lastInputs inp)
  | REvent.unmount => true
  | REvent.resolve _ _ => true

/-- The whole history suffix never changes the fit key. -/
def fitKeyStable : RState → List REvent → Bool
  | _, [] => true
  | s, e :: r => keepsFitKey s e && fitKeyStable (stepRoute s e) r

theorem fetchRouteResult_fit (c : Bool) (inp : RouteInputs) (resp : FetchResult)
    (h : Bool) (ov : Overlay) (b : Bool)
    (he : fetchRouteResult c inp resp h = some (ov, b)) : b = !h := by
  obtain ⟨sr, ul, d, pk⟩ := inp
  cases c with
  | true => rw [fetchRouteResult_cancelled] at he; cases he
  | false =>
    cases resp with
    | fail =>
      cases sr <;> cases ul <;> cases d <;> cases pk <;>
        simp_all [fetchRouteResult]
    | ok routes =>
      cases routes with
      | nil =>
        cases sr <;> cases ul <;> cases d <;> cases pk <;>
          simp_all [fetchRouteResult]
      | cons g rest =>
        cases sr <;> cases ul <;> cases d <;> cases pk <;>
          simp_all [fetchRouteResult]

theorem fitted_frame_step (s : RState) (e : REvent) (hf : s.hasFitted = true)
    (hk : keepsFitKey s e = true) :
    (stepRoute s e).hasFitted = true ∧ (stepRoute s e).fits = s.fits := by
  cases e with
  | render inp =>
    have hres : resetDepsChanged s.lastInputs inp = false := by
      simpa [keepsFitKey] using hk
    constructor
    · show (stepRender s inp).hasFitted = true
      rw [stepRender_hasFitted, hres]
      simpa using hf
    · exact stepRender_fits s inp
  | unmount =>
    constructor
    · show (stepUnmount s).hasFitted = true
      show (removeOverlay s).hasFitted = true
      rw [removeOverlay_hasFitted]
      exact hf
    · show (stepUnmount s).fits = s.fits
      show (removeOverlay s).fits = s.fits
      exact removeOverlay_fits s
  | resolve j resp =>
    cases hj : s.attempts[j]? with
    | none =>
      rw [show stepRoute s (REvent.resolve j resp) = stepResolve s j resp from rfl,
        stepResolve_eq_oob s j resp hj]
      exact ⟨hf, rfl⟩
    | some aj =>
      by_cases hd : (aj.done || !(eligible aj.inputs)) = true
      · rw [show stepRoute s (REvent.resolve j resp) = stepResolve s j resp from rfl,
          stepResolve_eq_skip s j resp aj hj hd]
        exact ⟨hf, rfl⟩
      · rw [Bool.not_eq_true] at hd
        cases hfr : fetchRouteResult aj.cancelled aj.inputs resp s.hasFitted with
        | none =>
          rw [show stepRoute s (REvent.resolve j resp) = stepResolve s j resp from rfl,
            stepResolve_eq_done s j resp aj hj hd hfr]
          exact ⟨hf, rfl⟩
        | some p =>
          obtain ⟨ov, fit⟩ := p
          have hfit : fit = false := by
            have := fetchRouteResult_fit aj.cancelled aj.inputs resp
              s.hasFitted ov fit hfr
            rw [hf] at this
            simpa using this
          rw [show stepRoute s (REvent.resolve j resp) = stepResolve s j resp from rfl,
            stepResolve_eq_attach s j resp aj ov fit hj hd hfr]
          refine ⟨rfl, ?_⟩
          show (if fit then s.fits ++ [j] else s.fits) = s.fits
          rw [hfit]
          rfl

theorem fitted_frame_run (s : RState) (tr : List REvent)
    (hf : s.hasFitted = true) (hk : fitKeyStable s tr = true) :
    (runRouteFrom s tr).hasFitted = true ∧ (runRouteFrom s tr).fits = s.fits := by
  induction tr generalizing s with
  | nil => exact ⟨hf, rfl⟩
  | cons e r ih =>
    simp only [fitKeyStable, Bool.and_eq_true] at hk
    have hs := fitted_frame_step s e hf hk.1
    have hr := ih (stepRoute s e) hs.1 hk.2
    refine ⟨hr.1, ?_⟩
    show (runRouteFrom (stepRoute s e) r).fits = s.fits
    rw [hr.2, hs.2]

/-- C5: once a view-fit has happened (hasFittedRouteRef is set), any
history in which neither the destination nor the showRoute flag changes
— origin moves, picking toggles, unmounts and resolutions included —
performs no further view-fit (the recorded fit list is unchanged and the
flag stays set); the flag is reset by a re-render exactly when the
destination or the enabled flag changed; and whenever the flag is clear,
any completion that renders an overlay (successful or fallback) does fit
the view. -/
theorem c5_fit_once :
    (∀ (s : RState) (tr : List REvent), s.hasFitted = true →
      fitKeyStable s tr = true →
      (runRouteFrom s tr).hasFitted = true ∧ (runRouteFrom s tr).fits = s.fits)
    ∧ (∀ (s : RState) (inp : RouteInputs),
      (stepRender s inp).hasFitted
        = if resetDepsChanged s.lastInputs inp then false else s.hasFitted)
    ∧ (∀ (c : Bool) (inp : RouteInputs) (resp : FetchResult) (ov : Overlay)
        (b : Bool),
      fetchRouteResult c inp resp false = some (ov, b) → b = true) := by
  refine ⟨fitted_frame_run, stepRender_hasFitted, ?_⟩
  intro c inp resp ov b he
  have := fetchRouteResult_fit c inp resp false ov b he
  simpa using this

/-- State used by the C5 witness: one live attempt for inpA, already
fitted (fit recorded for attempt 0). -/
def sW : RState := ⟨some inpA, [⟨inpA, false, false⟩], none, [], true, [0]⟩

/-- History used by the C5 witness: origin moves (same destination and
flags), then the new attempt resolves successfully. -/
def trW : List REvent :=
  [REvent.render inpB, REvent.resolve 1 (FetchResult.ok [[(29, 41), (30, 42)]])]

/-- C5 witness: the theorem applied to the concrete already-fitted state
and the origin-move history — the successful re-render does not re-fit. -/
theorem c5_fit_once_witness :
    fitKeyStable sW trW = true ∧ (runRouteFrom sW trW).fits = sW.fits :=
  ⟨by decide, (c5_fit_once.1 sW trW rfl (by decide)).2⟩

end MapView
